import Mathlib

/-!
Verification development for the agentdeck server.

Shallow embedding of the claim-relevant parts of the source:
  - `src/lib/terminal.js`  (TerminalSession: catch-up buffer, subscribers, broadcast;
    tmux helpers: listSessions, nextSessionName)
  - `src/lib/hooks.js`     (HookHandler.handleHook)
  - `src/lib/auth.js`      (Auth.createToken / Auth.validateToken)
  - `src/bin/cli.js`       (isServerRunning, stopCommand, statusCommand)
  - `src/unnamed/part_004` (AgentDeckServer: startSessionRefresh, status file)
  - `src/lib/server.js`    (AgentDeckServer: _handleDecision, _handleHookDecide)
  - `src/public/app.js`    (client-side handleSessions)

JS byte buffers are modelled as `List Nat`; JS strings as Lean `String`
or `List Char` where character-level matching matters.  Fallible or
effectful library calls (process signals, tmux, HTTP health probes) are
modelled as explicit boolean oracles or recorded actions.
-/

namespace AgentDeck

/-- Bytes of terminal output; a node `Buffer` is a list of bytes. -/
abbrev Bytes := List Nat

/-! ## Terminal catch-up buffer (`src/lib/terminal.js`)

`TerminalSession._appendBuffer` (terminal.js lines 95-102):

    const chunk = Buffer.from(data, 'utf-8');
    this.buffer = Buffer.concat([this.buffer, chunk]);
    if (this.buffer.length > this.bufferSize) {
      this.buffer = this.buffer.subarray(this.buffer.length - this.bufferSize);
    }
-/

/-- `TerminalSession._appendBuffer`: concatenate the chunk onto the buffer,
then keep only the most recent `size` bytes when capacity is exceeded. -/
def appendBuffer (size : Nat) (buf chunk : Bytes) : Bytes :=
  if size < (buf ++ chunk).length then
    (buf ++ chunk).drop ((buf ++ chunk).length - size)
  else buf ++ chunk

/-- The buffer obtained after appending a sequence of output chunks to an
initially empty buffer, one `_appendBuffer` call per chunk. -/
def runAppends (size : Nat) (chunks : List Bytes) : Bytes :=
  chunks.foldl (appendBuffer size) []

theorem appendBuffer_eq_drop (size : Nat) (buf chunk : Bytes) :
    appendBuffer size buf chunk =
      (buf ++ chunk).drop ((buf ++ chunk).length - size) := by
  unfold appendBuffer
  by_cases h : size < (buf ++ chunk).length
  · rw [if_pos h]
  · rw [if_neg h]
    have h0 : (buf ++ chunk).length - size = 0 := by omega
    rw [h0, List.drop_zero]

theorem appendBuffer_tail_step (size : Nat) (l c : Bytes) :
    appendBuffer size (l.drop (l.length - size)) c =
      (l ++ c).drop ((l ++ c).length - size) := by
  rw [appendBuffer_eq_drop]
  have ha : l.length - size ≤ l.length := by omega
  rw [← List.drop_append_of_le_length ha, List.drop_drop]
  congr 1
  simp only [List.length_append, List.length_drop]
  omega

theorem foldl_appendBuffer_drop (size : Nat) (chunks : List Bytes) :
    ∀ l : Bytes,
      chunks.foldl (appendBuffer size) (l.drop (l.length - size)) =
        (l ++ chunks.flatten).drop ((l ++ chunks.flatten).length - size) := by
  induction chunks with
  | nil => intro l; simp
  | cons c cs ih =>
    intro l
    simp only [List.foldl_cons, appendBuffer_tail_step]
    have := ih (l ++ c)
    rw [this]
    simp [List.append_assoc]

theorem runAppends_eq_tail (size : Nat) (chunks : List Bytes) :
    runAppends size chunks =
      chunks.flatten.drop (chunks.flatten.length - size) := by
  have h := foldl_appendBuffer_drop size chunks []
  simpa [runAppends] using h

/-- Claim C1: after every sequence of appended output chunks the catch-up
buffer's length is at most the configured capacity `size`; and once the total
appended output exceeds the capacity, the buffer holds exactly the most
recent `size` bytes of the concatenated output (tail-truncation). -/
theorem C1_catchup_buffer_tail_truncation (size : Nat) (chunks : List Bytes) :
    (runAppends size chunks).length ≤ size ∧
    (size < chunks.flatten.length →
      (runAppends size chunks).length = size ∧
      runAppends size chunks =
        chunks.flatten.drop (chunks.flatten.length - size)) := by
  rw [runAppends_eq_tail]
  constructor
  · rw [List.length_drop]; omega
  · intro h
    refine ⟨?_, rfl⟩
    rw [List.length_drop]; omega

/-- Witness for C1 at a concrete input: capacity 2, chunks `[1]` then
`[2, 3]`; the buffer ends as the last two bytes `[2, 3]`. -/
theorem C1_catchup_buffer_tail_truncation_witness :
    (runAppends 2 [[1], [2, 3]]).length ≤ 2 ∧ runAppends 2 [[1], [2, 3]] = [2, 3] :=
  ⟨(C1_catchup_buffer_tail_truncation 2 [[1], [2, 3]]).1,
   by
     have h := (C1_catchup_buffer_tail_truncation 2 [[1], [2, 3]]).2 (by decide)
     simpa using h.2⟩

/-! ## TerminalSession subscribers and broadcast (`src/lib/terminal.js`)

`addClient` (lines 71-77) adds the viewer to the `clients` set and, when the
catch-up buffer is nonempty, immediately sends its contents flagged as
catch-up.  Each PTY `onData` chunk (lines 39-42) is appended to the buffer
via `_appendBuffer` and then `_broadcast` (lines 104-108) sends it to every
current client flagged as live output.  A delivery is recorded as
`(clientId, payload, isCatchup)`.
-/

/-- State of one `TerminalSession` as far as subscriptions and the catch-up
buffer are concerned: the set of subscribed client ids (a JS `Set`,
modelled as a duplicate-free insertion-ordered list), the buffer, and the
configured capacity. -/
structure TSState where
  clients : List Nat
  buffer : Bytes
  bufferSize : Nat
deriving DecidableEq

/-- An operation on a `TerminalSession`: a viewer subscribing
(`addClient`) or a chunk of PTY output arriving (`onData`). -/
inductive TSOp where
  | addClient (id : Nat)
  | output (chunk : Bytes)
deriving DecidableEq

/-- A single delivery to a viewer: client id, payload bytes, and the
`isCatchup` flag passed to `client.onData(data, isCatchup)`. -/
abbrev Delivery := Nat × Bytes × Bool

/-- One step of the session: `addClient` inserts the client into the set and
replays the buffer (flag `true`) iff the buffer is nonempty; `output`
appends to the buffer and broadcasts the chunk (flag `false`) to every
current client. -/
def tsStep (s : TSState) : TSOp → TSState × List Delivery
  | TSOp.addClient id =>
      ({ s with clients := if id ∈ s.clients then s.clients else s.clients ++ [id] },
       if s.buffer.length > 0 then [(id, s.buffer, true)] else [])
  | TSOp.output chunk =>
      ({ s with buffer := appendBuffer s.bufferSize s.buffer chunk },
       s.clients.map fun c => (c, chunk, false))

/-- Run a sequence of operations, accumulating all deliveries in order. -/
def tsRun (s : TSState) : List TSOp → TSState × List Delivery
  | [] => (s, [])
  | op :: ops =>
      ((tsRun (tsStep s op).1 ops).1,
       (tsStep s op).2 ++ (tsRun (tsStep s op).1 ops).2)

/-- The deliveries addressed to one client, in order. -/
def deliveriesTo (id : Nat) (ds : List Delivery) : List (Bytes × Bool) :=
  ds.filterMap fun d => if d.1 = id then some (d.2.1, d.2.2) else none

theorem tsRun_outputs_clients (s : TSState) (chunks : List Bytes) :
    (tsRun s (chunks.map TSOp.output)).1.clients = s.clients := by
  induction chunks generalizing s with
  | nil => simp [tsRun]
  | cons c cs ih => simp [tsRun, tsStep, ih]

theorem deliveriesTo_append (c : Nat) (ds1 ds2 : List Delivery) :
    deliveriesTo c (ds1 ++ ds2) = deliveriesTo c ds1 ++ deliveriesTo c ds2 := by
  simp [deliveriesTo]

theorem deliveriesTo_broadcast_mem (cls : List Nat) (hnd : cls.Nodup) (c : Nat)
    (hc : c ∈ cls) (ch : Bytes) :
    deliveriesTo c (cls.map fun cl => (cl, ch, false)) = [(ch, false)] := by
  induction cls with
  | nil => simp at hc
  | cons x xs ih =>
    rcases List.mem_cons.mp hc with h | h
    · subst h
      have hx : c ∉ xs := (List.nodup_cons.mp hnd).1
      have hrest : deliveriesTo c (xs.map fun cl => (cl, ch, false)) = [] := by
        rw [deliveriesTo, List.filterMap_eq_nil_iff]
        intro d hd
        rcases List.mem_map.mp hd with ⟨a, ha, rfl⟩
        have hac : a ≠ c := fun h => hx (h ▸ ha)
        simp [hac]
      simp only [List.map_cons, deliveriesTo, List.filterMap_cons] at *
      simp [hrest]
    · have hx : x ≠ c := by
        intro hxc
        exact (List.nodup_cons.mp hnd).1 (hxc ▸ h)
      have hstep := ih (List.nodup_cons.mp hnd).2 h
      simp only [List.map_cons, deliveriesTo, List.filterMap_cons] at *
      simpa [hx] using hstep

theorem tsRun_outputs_deliveries (s : TSState) (chunks : List Bytes) (c : Nat)
    (hnd : s.clients.Nodup) (hc : c ∈ s.clients) :
    deliveriesTo c (tsRun s (chunks.map TSOp.output)).2 =
      chunks.map fun ch => (ch, false) := by
  induction chunks generalizing s with
  | nil => simp [tsRun, deliveriesTo]
  | cons ch cs ih =>
    simp only [List.map_cons, tsRun, tsStep]
    rw [deliveriesTo_append, deliveriesTo_broadcast_mem s.clients hnd c hc ch]
    have hcl : ({ s with buffer := appendBuffer s.bufferSize s.buffer ch } :
        TSState).clients = s.clients := rfl
    rw [ih _ (by rw [hcl]; exact hnd) (by rw [hcl]; exact hc)]
    simp

theorem tsStep_addClient_nodup (s : TSState) (id : Nat) (hnd : s.clients.Nodup) :
    (tsStep s (TSOp.addClient id)).1.clients.Nodup := by
  simp only [tsStep]
  by_cases h : id ∈ s.clients
  · simpa [h] using hnd
  · simp only [if_neg h]
    exact List.Nodup.append hnd (List.nodup_singleton id) (by simpa using h)

/-- Claim C7 (amended): subscribing a new viewer adds it to the subscriber
set; when the catch-up buffer is nonempty the viewer immediately receives
the entire buffer as one delivery flagged as catch-up, before any byte
produced after the subscription; every chunk broadcast afterwards is
delivered (flagged live) to all current subscribers, the new one included.
(When the buffer is empty, `addClient` sends no catch-up delivery at all —
see the counterexample.) -/
theorem C7_subscribe_catchup_then_live (s : TSState) (id : Nat) (outs : List Bytes)
    (hnd : s.clients.Nodup) (hid : id ∉ s.clients) (hbuf : 0 < s.buffer.length) :
    id ∈ (tsRun s (TSOp.addClient id :: outs.map TSOp.output)).1.clients ∧
    deliveriesTo id (tsRun s (TSOp.addClient id :: outs.map TSOp.output)).2 =
      (s.buffer, true) :: outs.map (fun ch => (ch, false)) ∧
    ∀ c ∈ s.clients,
      deliveriesTo c (tsRun s (TSOp.addClient id :: outs.map TSOp.output)).2 =
        outs.map fun ch => (ch, false) := by
  have hstep : tsStep s (TSOp.addClient id) =
      ({ s with clients := s.clients ++ [id] }, [(id, s.buffer, true)]) := by
    simp [tsStep, hid, hbuf]
  have hrun : tsRun s (TSOp.addClient id :: outs.map TSOp.output) =
      ((tsRun { s with clients := s.clients ++ [id] } (outs.map TSOp.output)).1,
       [(id, s.buffer, true)] ++
         (tsRun { s with clients := s.clients ++ [id] } (outs.map TSOp.output)).2) := by
    simp [tsRun, hstep]
  have hnd1 : ({ s with clients := s.clients ++ [id] } : TSState).clients.Nodup :=
    List.Nodup.append hnd (List.nodup_singleton id) (by simpa using hid)
  have hmem1 : id ∈ ({ s with clients := s.clients ++ [id] } : TSState).clients := by
    simp
  refine ⟨?_, ?_, ?_⟩
  · rw [hrun]
    rw [tsRun_outputs_clients]
    simp
  · rw [hrun]
    rw [deliveriesTo_append,
      tsRun_outputs_deliveries _ _ _ hnd1 hmem1]
    simp [deliveriesTo]
  · intro c hc
    have hcid : c ≠ id := fun h => hid (h ▸ hc)
    have hmemc : c ∈ ({ s with clients := s.clients ++ [id] } : TSState).clients := by
      simp [hc]
    have hidc : id ≠ c := Ne.symm hcid
    rw [hrun, deliveriesTo_append,
      tsRun_outputs_deliveries _ _ _ hnd1 hmemc]
    simp [deliveriesTo, hidc]

/-- Witness for C7 at a concrete input: prior subscriber `5`, buffer
`[1, 2]`, new viewer `7`, then two live chunks `[3]` and `[4]`. -/
theorem C7_subscribe_catchup_then_live_witness :
    deliveriesTo 7
        (tsRun ⟨[5], [1, 2], 10⟩ (TSOp.addClient 7 :: [[3], [4]].map TSOp.output)).2 =
      [([1, 2], true), ([3], false), ([4], false)] ∧
    deliveriesTo 5
        (tsRun ⟨[5], [1, 2], 10⟩ (TSOp.addClient 7 :: [[3], [4]].map TSOp.output)).2 =
      [([3], false), ([4], false)] := by
  have h := C7_subscribe_catchup_then_live ⟨[5], [1, 2], 10⟩ 7 [[3], [4]]
    (by decide) (by decide) (by decide)
  exact ⟨by simpa using h.2.1, by simpa using h.2.2 5 (by decide)⟩

/-- Counterexample to claim C7 as stated: when the catch-up buffer is empty,
`addClient` delivers nothing at all to the new viewer — there is no delivery
flagged as catch-up, although the claim mandates a single catch-up delivery
for every `TerminalSession` and viewer. -/
theorem C7_empty_buffer_counterexample :
    (tsRun ⟨[], [], 50000⟩ [TSOp.addClient 0]).2 = [] := by
  decide

/-! ## PIN authentication (`src/lib/auth.js`)

`Auth` holds a configured PIN, a `disabled` flag, and a per-process random
signing secret (`crypto.randomBytes(32)`).  `createToken` (lines 25-28):

    if (!this.disabled && pin !== this.pin) return null;
    return this._hmac(pin || 'no-auth');

`validateToken` (lines 33-45): disabled ⇒ true; falsy token ⇒ false;
otherwise recompute the expected HMAC of the configured PIN and compare
with a length check plus `crypto.timingSafeEqual` (byte equality), any
decoding error giving false.

`crypto.createHmac('sha256', secret).update(data)` is an external library
call; it is modelled as an ideal (collision-free) keyed MAC, represented
by the injective encoding `secret.length :: secret ++ data`.  PINs,
secrets and tokens are byte lists.
-/

/-- Configuration of the `Auth` gate (auth.js constructor): the shared PIN,
the `disabled` flag, and the per-run random signing secret. -/
structure AuthState where
  pin : Bytes
  disabled : Bool
  secret : Bytes
deriving DecidableEq

/-- The bytes of the literal `'no-auth'` used when `createToken` is called
with a falsy pin (auth.js line 27). -/
def noAuthBytes : Bytes := [110, 111, 45, 97, 117, 116, 104]

/-- Ideal-MAC model of `Auth._hmac` (auth.js lines 71-73): an injective
keyed function of the secret and the data. -/
def hmacSHA256 (secret data : Bytes) : Bytes :=
  secret.length :: (secret ++ data)

/-- `Auth.createToken` (auth.js lines 25-28). -/
def createToken (a : AuthState) (p : Bytes) : Option Bytes :=
  if a.disabled = false ∧ p ≠ a.pin then none
  else some (hmacSHA256 a.secret (if p = [] then noAuthBytes else p))

/-- `Auth.validateToken` (auth.js lines 33-45): the length check plus
`timingSafeEqual` amount to byte equality with the expected MAC. -/
def validateToken (a : AuthState) (t : Bytes) : Bool :=
  if a.disabled then true
  else if t = [] then false
  else decide (t = hmacSHA256 a.secret a.pin)

theorem hmacSHA256_inj_key {k1 d1 k2 d2 : Bytes}
    (h : hmacSHA256 k1 d1 = hmacSHA256 k2 d2) : k1 = k2 := by
  unfold hmacSHA256 at h
  have hlen : k1.length = k2.length := (List.cons.injEq _ _ _ _).mp h |>.1
  have happ : k1 ++ d1 = k2 ++ d2 := (List.cons.injEq _ _ _ _).mp h |>.2
  exact List.append_inj_left happ hlen

/-- Claim C3: with auth enabled, `createToken` returns a token exactly for
the configured PIN (null otherwise); a token created with the correct PIN
validates under the same per-run secret; and no token created under one
per-run secret validates under a different one (process restart). -/
theorem C3_token_lifecycle (a b : AuthState)
    (hA : a.disabled = false) (hB : b.disabled = false) :
    (a.pin ≠ [] →
      createToken a a.pin = some (hmacSHA256 a.secret a.pin) ∧
      validateToken a (hmacSHA256 a.secret a.pin) = true) ∧
    (∀ p, p ≠ a.pin → createToken a p = none) ∧
    (∀ p t, a.secret ≠ b.secret → createToken a p = some t →
      validateToken b t = false) := by
  refine ⟨fun hpin => ⟨?_, ?_⟩, fun p hp => ?_, fun p t hsec hct => ?_⟩
  · unfold createToken
    rw [if_neg (by simp), if_neg hpin]
  · unfold validateToken
    rw [if_neg (by simp [hA]), if_neg (by simp [hmacSHA256])]
    simp
  · unfold createToken
    rw [if_pos ⟨hA, hp⟩]
  · unfold createToken at hct
    by_cases hcond : a.disabled = false ∧ p ≠ a.pin
    · rw [if_pos hcond] at hct; exact absurd hct (by simp)
    · rw [if_neg hcond] at hct
      have ht : t = hmacSHA256 a.secret (if p = [] then noAuthBytes else p) :=
        (Option.some.injEq _ _).mp hct |>.symm
      unfold validateToken
      rw [if_neg (by simp [hB]), if_neg (by simp [ht, hmacSHA256])]
      simp only [decide_eq_false_iff_not]
      intro heq
      exact hsec (hmacSHA256_inj_key (ht ▸ heq))

/-- Witness for C3 at concrete inputs: PIN `[1, 2]`, run-1 secret `[5]`,
run-2 secret `[6]`. -/
theorem C3_token_lifecycle_witness :
    validateToken ⟨[1, 2], false, [5]⟩ (hmacSHA256 [5] [1, 2]) = true ∧
    createToken ⟨[1, 2], false, [5]⟩ [9] = none ∧
    validateToken ⟨[1, 2], false, [6]⟩ (hmacSHA256 [5] [1, 2]) = false := by
  have h := C3_token_lifecycle ⟨[1, 2], false, [5]⟩ ⟨[1, 2], false, [6]⟩ rfl rfl
  refine ⟨(h.1 (by decide)).2, h.2.1 [9] (by decide), ?_⟩
  have hc : createToken ⟨[1, 2], false, [5]⟩ [1, 2] =
      some (hmacSHA256 [5] [1, 2]) := (h.1 (by decide)).1
  exact h.2.2 [1, 2] (hmacSHA256 [5] [1, 2]) (by decide) hc

/-! ## Session auto-naming (`src/lib/tmux.js`, bundled in `src/lib/terminal.js`)

`nextSessionName` (tmux.js lines 225-234):

    const sessions = listSessions({ includeHidden: true });
    const re = new RegExp(`^P-(\d+)$`);
    let max = 0;
    for (const s of sessions) {
      const m = s.name.match(re);
      if (m) max = Math.max(max, parseInt(m[1], 10));
    }
    return `P-(max + 1)`;

`listSessions` filters out names starting with `_` unless `includeHidden`
is set; `nextSessionName` passes `includeHidden: true`, so hidden sessions
count.  Session names are lists of characters so that the digit matching
of the anchored regular expression can be expressed character by
character.
-/

/-- A tmux session name. -/
abbrev SessName := List Char

/-- A hidden session: its name starts with an underscore
(tmux.js line 178). -/
def isHiddenName : SessName → Bool
  | [] => false
  | c :: _ => c = '_'

/-- `listSessions` (tmux.js lines 158-183) restricted to the name list: with
`includeHidden` every session is returned, otherwise the hidden ones are
filtered out. -/
def listSessionNames (includeHidden : Bool) (all : List SessName) : List SessName :=
  if includeHidden then all else all.filter fun n => !isHiddenName n

/-- `parseInt(digits, 10)` on a nonempty all-digit string. -/
def digitsVal (ds : List Char) : Nat :=
  ds.foldl (fun a c => a * 10 + (c.toNat - '0'.toNat)) 0

/-- The anchored match `^P-(\d+)$` followed by `parseInt` (tmux.js lines
227-231): the name must be exactly the given stem, a dash, and a nonempty
run of decimal digits; the captured value is returned. -/
def matchNum (pfx s : SessName) : Option Nat :=
  if s.take (pfx.length + 1) = pfx ++ ['-'] then
    if !(s.drop (pfx.length + 1)).isEmpty &&
        (s.drop (pfx.length + 1)).all Char.isDigit then
      some (digitsVal (s.drop (pfx.length + 1)))
    else none
  else none

/-- The `max` accumulator loop of `nextSessionName` (tmux.js lines 228-232),
starting from 0. -/
def maxMatch (pfx : SessName) (names : List SessName) : Nat :=
  names.foldl
    (fun acc s =>
      match matchNum pfx s with
      | some n => Nat.max acc n
      | none => acc) 0

/-- `nextSessionName` (tmux.js lines 225-234): the stem, a dash, and the
decimal digits of `max + 1`, computed over all sessions hidden included. -/
def nextSessionName (pfx : SessName) (all : List SessName) : SessName :=
  pfx ++ '-' :: Nat.toDigits 10 (maxMatch pfx (listSessionNames true all) + 1)

theorem maxMatch_foldl_ge (pfx : SessName) (names : List SessName) :
    ∀ acc : Nat,
      acc ≤ names.foldl
        (fun acc s =>
          match matchNum pfx s with
          | some n => Nat.max acc n
          | none => acc) acc := by
  induction names with
  | nil => intro acc; simp
  | cons s ss ih =>
    intro acc
    rw [List.foldl_cons]
    rcases h : matchNum pfx s with _ | n
    · simpa using ih acc
    · exact le_trans (Nat.le_max_left acc n) (by simpa using ih (Nat.max acc n))

theorem maxMatch_foldl_ub (pfx : SessName) (names : List SessName) :
    ∀ acc : Nat, ∀ s ∈ names, ∀ n, matchNum pfx s = some n →
      n ≤ names.foldl
        (fun acc s =>
          match matchNum pfx s with
          | some n => Nat.max acc n
          | none => acc) acc := by
  induction names with
  | nil => intro acc s hs; simp at hs
  | cons x xs ih =>
    intro acc s hs n hn
    rw [List.foldl_cons]
    rcases List.mem_cons.mp hs with h | h
    · subst h
      rw [hn]
      exact le_trans (Nat.le_max_right acc n)
        (by simpa using maxMatch_foldl_ge pfx xs (Nat.max acc n))
    · rcases hx : matchNum pfx x with _ | m
      · simpa using ih acc s h n hn
      · simpa using ih (Nat.max acc m) s h n hn

theorem maxMatch_foldl_attained (pfx : SessName) (names : List SessName) :
    ∀ acc : Nat,
      names.foldl
        (fun acc s =>
          match matchNum pfx s with
          | some n => Nat.max acc n
          | none => acc) acc = acc ∨
      ∃ s ∈ names, matchNum pfx s = some
        (names.foldl
          (fun acc s =>
            match matchNum pfx s with
            | some n => Nat.max acc n
            | none => acc) acc) := by
  induction names with
  | nil => intro acc; left; rfl
  | cons x xs ih =>
    intro acc
    rw [List.foldl_cons]
    rcases hx : matchNum pfx x with _ | m
    · rcases ih acc with h | ⟨s, hs, h⟩
      · left; simpa using h
      · right; exact ⟨s, List.mem_cons_of_mem x hs, by simpa using h⟩
    · rcases ih (Nat.max acc m) with h | ⟨s, hs, h⟩
      · rcases Nat.le_total acc m with hle | hle
        · right
          refine ⟨x, List.mem_cons_self x xs, ?_⟩
          rw [hx, h]
          exact congrArg some (Nat.max_eq_right hle).symm
        · left
          rw [h]
          exact Nat.max_eq_left hle
      · right; exact ⟨s, List.mem_cons_of_mem x hs, by simpa using h⟩

/-- Claim C4: `nextSessionName P` returns `P-(m+1)` where `m` is the
maximum value over all existing sessions (hidden or visible) whose name
matches `P-<integer>` exactly, with `m = 0` when none match (so never
gap-fill and never a reused freed number). -/
theorem C4_next_session_name (pfx : SessName) (all : List SessName) :
    nextSessionName pfx all =
      pfx ++ '-' :: Nat.toDigits 10 (maxMatch pfx all + 1) ∧
    (∀ s ∈ all, ∀ n, matchNum pfx s = some n → n ≤ maxMatch pfx all) ∧
    (maxMatch pfx all = 0 ∨
      ∃ s ∈ all, matchNum pfx s = some (maxMatch pfx all)) := by
  refine ⟨rfl, ?_, ?_⟩
  · intro s hs n hn
    exact maxMatch_foldl_ub pfx all 0 s hs n hn
  · exact maxMatch_foldl_attained pfx all 0

/-- Witness for C4 at the spec's concrete input: existing sessions
`agent-1` and `agent-3`; the next generated name is `agent-4` (max+1, not
gap-fill), and the theorem's maximum bound applied to `agent-3` gives
`3 ≤ m`. -/
theorem C4_next_session_name_witness :
    nextSessionName "agent".toList ["agent-1".toList, "agent-3".toList] =
      "agent-4".toList ∧
    3 ≤ maxMatch "agent".toList ["agent-1".toList, "agent-3".toList] := by
  have h := C4_next_session_name "agent".toList
    ["agent-1".toList, "agent-3".toList]
  exact ⟨by decide, h.2.1 "agent-3".toList (by decide) 3 (by decide)⟩

/-! ## Hook relay (`src/lib/hooks.js`)

`HookHandler.handleHook` (hooks.js lines 33-66).  The observable behaviour
of one call is recorded as an ordered event trace: callback invocations
(`onPermissionRequest` / `onNotification`, both optional — set only when a
server wired them) followed by the value returned to the HTTP caller.  The
`recentRequests` map is modelled as an insertion-ordered list (insertion
order equals timestamp order) trimmed to the most recent `maxRecent`
entries. -/

/-- An incoming hook POST body: its `type` field (absent or a string; the
empty string is falsy in the `!hookData.type` guard) and the rest of the
payload, opaque. -/
structure HookData where
  type : Option String
  payload : String
deriving DecidableEq

/-- The JSON value `handleHook` returns to the caller. -/
inductive HookResponse where
  /-- `{ error: 'Missing hook type' }` -/
  | errMissing
  /-- `{}` — the empty response for notifications -/
  | emptyAck
  /-- `{ decision: { behavior: 'ask' } }` — defer to the interactive prompt -/
  | askDecision
  /-- `{ error: 'Unknown hook type: <t>' }` -/
  | errUnknown (t : String)
deriving DecidableEq

/-- One observable action of a `handleHook` call, in execution order. -/
inductive HookEvent where
  /-- the `onPermissionRequest(id, hookData)` forwarding callback -/
  | cbPermission (id : Nat) (h : HookData)
  /-- the `onNotification(hookData)` forwarding callback -/
  | cbNotify (h : HookData)
  /-- the JSON response returned to the caller -/
  | respond (r : HookResponse)
deriving DecidableEq

/-- `HookHandler.maxRecent` (hooks.js line 22). -/
def maxRecent : Nat := 50

/-- `HookHandler._trimRecent` (hooks.js lines 77-87): delete the oldest
entries beyond `maxRecent` (insertion order equals timestamp order). -/
def trimRecent (l : List (Nat × HookData)) : List (Nat × HookData) :=
  if maxRecent < l.length then l.drop (l.length - maxRecent) else l

/-- `HookHandler.handleHook` (hooks.js lines 33-66), with the synthesized
`crypto.randomUUID()` passed in as `uuid` and the optional callbacks as
presence flags.  The returned pair is the ordered event trace and the
updated `recentRequests` list. -/
def handleHook (hasPermCb hasNotifCb : Bool) (uuid : Nat)
    (recent : List (Nat × HookData)) (h : HookData) :
    List HookEvent × List (Nat × HookData) :=
  match h.type with
  | none => ([HookEvent.respond HookResponse.errMissing], recent)
  | some t =>
    if t = "" then ([HookEvent.respond HookResponse.errMissing], recent)
    else if t = "Notification" then
      ((if hasNotifCb then [HookEvent.cbNotify h] else []) ++
        [HookEvent.respond HookResponse.emptyAck], recent)
    else if t = "PermissionRequest" then
      ((if hasPermCb then [HookEvent.cbPermission uuid h] else []) ++
        [HookEvent.respond HookResponse.askDecision],
       trimRecent (recent ++ [(uuid, h)]))
    else ([HookEvent.respond (HookResponse.errUnknown t)], recent)

/-- Claim C2 (amended): for every permission-request hook event,
`handleHook` records the synthesized id and returns the fixed
`{ decision: { behavior: 'ask' } }` response regardless of whether any
viewer callback is wired; the forwarding callback, when wired, is invoked
synchronously *before* the response is returned to the caller (it is the
first action of the call, and the response is the last). -/
theorem C2_permission_hook_ask (hasPermCb hasNotifCb : Bool) (uuid : Nat)
    (recent : List (Nat × HookData)) (h : HookData)
    (ht : h.type = some "PermissionRequest") :
    (handleHook hasPermCb hasNotifCb uuid recent h).1 =
      (if hasPermCb then [HookEvent.cbPermission uuid h] else []) ++
        [HookEvent.respond HookResponse.askDecision] ∧
    (handleHook hasPermCb hasNotifCb uuid recent h).1.getLast? =
      some (HookEvent.respond HookResponse.askDecision) ∧
    (hasPermCb = true →
      (handleHook hasPermCb hasNotifCb uuid recent h).1.head? =
        some (HookEvent.cbPermission uuid h)) := by
  obtain ⟨ty, pl⟩ := h
  simp only [] at ht
  subst ht
  refine ⟨by simp [handleHook], ?_, ?_⟩
  · rcases hasPermCb with _ | _ <;> simp [handleHook]
  · intro hp
    subst hp
    simp [handleHook]

/-- Witness for C2 at a concrete input: a permission request with the
callback wired. -/
theorem C2_permission_hook_ask_witness :
    (handleHook true true 7 [] ⟨some "PermissionRequest", "demo"⟩).1 =
      [HookEvent.cbPermission 7 ⟨some "PermissionRequest", "demo"⟩,
       HookEvent.respond HookResponse.askDecision] := by
  simpa using
    (C2_permission_hook_ask true true 7 [] ⟨some "PermissionRequest", "demo"⟩ rfl).1

/-- Counterexample to claim C2 as stated: at a concrete permission request
the forwarding callback is the *first* recorded action and the response to
the caller comes after it — the callback is not invoked "only after this
response has been returned". -/
theorem C2_callback_precedes_response_counterexample :
    (handleHook true true 7 [] ⟨some "PermissionRequest", "p"⟩).1.head? =
      some (HookEvent.cbPermission 7 ⟨some "PermissionRequest", "p"⟩) ∧
    (handleHook true true 7 [] ⟨some "PermissionRequest", "p"⟩).1.getLast? =
      some (HookEvent.respond HookResponse.askDecision) ∧
    (handleHook true true 7 [] ⟨some "PermissionRequest", "p"⟩).1.head? ≠
      some (HookEvent.respond HookResponse.askDecision) := by
  refine ⟨rfl, rfl, ?_⟩
  simp [handleHook]

/-- Claim C8 (amended): a hook event whose (nonempty) type is neither
`PermissionRequest` nor `Notification` is *not* forwarded: no callback is
invoked, the stored request list is unchanged, and the caller receives the
error acknowledgment `{ error: 'Unknown hook type: <t>' }` rather than an
empty one. -/
theorem C8_unknown_hook_not_forwarded (hasPermCb hasNotifCb : Bool) (uuid : Nat)
    (recent : List (Nat × HookData)) (h : HookData) (t : String)
    (ht : h.type = some t) (h1 : t ≠ "") (h2 : t ≠ "Notification")
    (h3 : t ≠ "PermissionRequest") :
    handleHook hasPermCb hasNotifCb uuid recent h =
      ([HookEvent.respond (HookResponse.errUnknown t)], recent) := by
  obtain ⟨ty, pl⟩ := h
  simp only [] at ht
  subst ht
  simp [handleHook, h1, h2, h3]

/-- Witness for C8 at a concrete input: the hook type `Stop`. -/
theorem C8_unknown_hook_not_forwarded_witness :
    handleHook false false 3 [] ⟨some "Stop", "x"⟩ =
      ([HookEvent.respond (HookResponse.errUnknown "Stop")], []) :=
  C8_unknown_hook_not_forwarded false false 3 [] ⟨some "Stop", "x"⟩ "Stop" rfl
    (by decide) (by decide) (by decide)

/-- Counterexample to claim C8 as stated: at the concrete unknown hook type
`Stop`, the whole trace is a single error response — no forwarding callback
fires, and the acknowledgment is not empty. -/
theorem C8_unknown_hook_counterexample :
    (handleHook true true 7 [] ⟨some "Stop", "demo"⟩).1 =
      [HookEvent.respond (HookResponse.errUnknown "Stop")] ∧
    HookEvent.respond HookResponse.emptyAck ∉
      (handleHook true true 7 [] ⟨some "Stop", "demo"⟩).1 ∧
    HookEvent.cbNotify ⟨some "Stop", "demo"⟩ ∉
      (handleHook true true 7 [] ⟨some "Stop", "demo"⟩).1 := by
  refine ⟨rfl, ?_, ?_⟩ <;> simp [handleHook]

/-! ## Daemon status checks and stop (`src/bin/cli.js`, `src/unnamed/part_004`)

The status record `~/.agentdeck/status.json` is modelled as an
`Option DaemonStatus` (present or absent); `AgentDeckServer.readStatus`
returns `null` on any read/parse failure and `deleteStatus` swallows
errors, so file effects reduce to this option.  `process.kill(pid, 0)`
liveness and the bounded-timeout `GET /api/health` probe are boolean
oracles.  A falsy `status.pid` or `status.port` (modelled as 0) takes the
JS `||`/`!` fallback paths.
-/

/-- The claim-relevant fields of the status record
(part_004 `writeStatus`, lines 110-120). -/
structure DaemonStatus where
  pid : Nat
  port : Nat
deriving DecidableEq

/-- `isServerRunning` (cli.js lines 439-457): read the status record;
absent ⇒ not running.  Present with a falsy or dead pid ⇒ delete the
record, not running.  Alive pid but failed health probe on
`status.port || port` ⇒ delete the record, not running.  Healthy ⇒
running, record kept.  Returns the reported state and the record state
after the check. -/
def isServerRunning (alive healthy : Nat → Bool) (cfgPort : Nat)
    (file : Option DaemonStatus) : Bool × Option DaemonStatus :=
  match file with
  | none => (false, none)
  | some s =>
    if s.pid = 0 ∨ alive s.pid = false then (false, none)
    else if healthy (if s.port = 0 then cfgPort else s.port) = false then
      (false, none)
    else (true, some s)

/-- An externally visible action of `stopCommand`. -/
inductive StopAction where
  /-- `process.kill(pid, 'SIGTERM')` on the recorded daemon pid -/
  | sigterm (pid : Nat)
  /-- `tmux kill-session -t _agentdeck` on the hidden daemon session -/
  | killHiddenSession
deriving DecidableEq

/-- `stopCommand` (cli.js lines 388-427): absent record ⇒ print "not
running" and change nothing.  Otherwise signal the recorded pid when it is
truthy and alive (errors swallowed), independently kill the hidden
`_agentdeck` tmux session when it exists (errors swallowed), and
unconditionally delete the status record.  Returns the record state after
the run and the actions attempted. -/
def stopCommand (alive : Nat → Bool) (hiddenExists : Bool)
    (file : Option DaemonStatus) : Option DaemonStatus × List StopAction :=
  match file with
  | none => (none, [])
  | some s =>
    (none,
      (if s.pid ≠ 0 ∧ alive s.pid = true then [StopAction.sigterm s.pid] else []) ++
        (if hiddenExists then [StopAction.killHiddenSession] else []))

/-- What the `status` subcommand reports. -/
inductive StatusReport where
  /-- "AgentDeck server is not running." -/
  | notRunning
  /-- server info for a live record -/
  | running (s : DaemonStatus)
deriving DecidableEq

/-- `statusCommand` (cli.js lines 342-361): absent record ⇒ not running;
present record with a dead pid ⇒ delete it and report not running;
otherwise report the record.  Returns the report and the record state
after the run. -/
def statusCommand (alive : Nat → Bool) (file : Option DaemonStatus) :
    StatusReport × Option DaemonStatus :=
  match file with
  | none => (StatusReport.notRunning, none)
  | some s =>
    if alive s.pid = false then (StatusReport.notRunning, none)
    else (StatusReport.running s, some s)

/-- Claim C5: the four-way state determination of `isServerRunning`, and
the invariant that a state check never leaves the status record pointing
at a dead or unhealthy process: whenever the record survives the check,
the check reported running with a live pid and a passing health probe. -/
theorem C5_server_state_determination (alive healthy : Nat → Bool)
    (cfgPort : Nat) (file : Option DaemonStatus) :
    (file = none → isServerRunning alive healthy cfgPort file = (false, none)) ∧
    (∀ s, file = some s → alive s.pid = false →
      isServerRunning alive healthy cfgPort file = (false, none)) ∧
    (∀ s, file = some s → s.pid ≠ 0 → alive s.pid = true → s.port ≠ 0 →
      healthy s.port = false →
      isServerRunning alive healthy cfgPort file = (false, none)) ∧
    (∀ s, file = some s → s.pid ≠ 0 → alive s.pid = true → s.port ≠ 0 →
      healthy s.port = true →
      isServerRunning alive healthy cfgPort file = (true, some s)) ∧
    (∀ s, (isServerRunning alive healthy cfgPort file).2 = some s →
      (isServerRunning alive healthy cfgPort file).1 = true ∧
        alive s.pid = true ∧
        healthy (if s.port = 0 then cfgPort else s.port) = true) := by
  refine ⟨fun hf => by rw [hf]; rfl, fun s hf hdead => ?_, fun s hf hpid hal hport hun => ?_,
    fun s hf hpid hal hport hok => ?_, fun s hs => ?_⟩
  · rw [hf]
    simp [isServerRunning, hdead]
  · rw [hf]
    simp [isServerRunning, hpid, hal, hport, hun]
  · rw [hf]
    simp [isServerRunning, hpid, hal, hport, hok]
  · match hfile : file with
    | none => simp [isServerRunning] at hs
    | some s0 =>
      simp only [isServerRunning] at hs ⊢
      by_cases h1 : s0.pid = 0 ∨ alive s0.pid = false
      · rw [if_pos h1] at hs; simp at hs
      · rw [if_neg h1] at hs ⊢
        by_cases h2 : healthy (if s0.port = 0 then cfgPort else s0.port) = false
        · rw [if_pos h2] at hs; simp at hs
        · rw [if_neg h2] at hs ⊢
          have hss : s0 = s := by simpa using hs
          subst hss
          push_neg at h1
          refine ⟨rfl, ?_, ?_⟩
          · cases hal : alive s0.pid with
            | false => exact absurd hal h1.2
            | true => rfl
          · cases hok : healthy (if s0.port = 0 then cfgPort else s0.port) with
            | false => exact absurd hok h2
            | true => rfl

/-- Witness for C5 at concrete inputs: record `pid 42, port 3300`, with an
alive-pid oracle and each health outcome. -/
theorem C5_server_state_determination_witness :
    isServerRunning (fun _ => true) (fun _ => true) 3300
        (some ⟨42, 3300⟩) = (true, some ⟨42, 3300⟩) ∧
    isServerRunning (fun _ => true) (fun _ => false) 3300
        (some ⟨42, 3300⟩) = (false, none) ∧
    isServerRunning (fun _ => false) (fun _ => true) 3300
        (some ⟨42, 3300⟩) = (false, none) ∧
    isServerRunning (fun _ => true) (fun _ => true) 3300 none = (false, none) := by
  refine ⟨?_, ?_, ?_, ?_⟩
  · exact (C5_server_state_determination (fun _ => true) (fun _ => true) 3300
      (some ⟨42, 3300⟩)).2.2.2.1 ⟨42, 3300⟩ rfl (by decide) rfl (by decide) rfl
  · exact (C5_server_state_determination (fun _ => true) (fun _ => false) 3300
      (some ⟨42, 3300⟩)).2.2.1 ⟨42, 3300⟩ rfl (by decide) rfl (by decide) rfl
  · exact (C5_server_state_determination (fun _ => false) (fun _ => true) 3300
      (some ⟨42, 3300⟩)).2.1 ⟨42, 3300⟩ rfl rfl
  · exact (C5_server_state_determination (fun _ => true) (fun _ => true) 3300
      none).1 rfl

/-- Claim C6: after any `stop` the status record is gone; the recorded pid
is signalled when alive and the hidden session kill is attempted
independently whenever that session exists; a second `stop` when the
daemon is already gone performs no action and changes nothing
(idempotence); and a `status` run immediately after any `stop` reports
"not running". -/
theorem C6_stop_idempotent_status_not_running (alive alive2 : Nat → Bool)
    (hiddenExists hidden2 : Bool) (file : Option DaemonStatus) :
    (stopCommand alive hiddenExists file).1 = none ∧
    (∀ s, file = some s → alive s.pid = true → s.pid ≠ 0 →
      StopAction.sigterm s.pid ∈ (stopCommand alive hiddenExists file).2) ∧
    (∀ s, file = some s → hiddenExists = true →
      StopAction.killHiddenSession ∈ (stopCommand alive hiddenExists file).2) ∧
    stopCommand alive2 hidden2 (stopCommand alive hiddenExists file).1 =
      (none, []) ∧
    (statusCommand alive2 (stopCommand alive hiddenExists file).1).1 =
      StatusReport.notRunning := by
  refine ⟨?_, fun s hf hal hpid => ?_, fun s hf hh => ?_, ?_, ?_⟩
  · cases file <;> rfl
  · rw [hf]
    simp [stopCommand, hal, hpid]
  · rw [hf]
    simp [stopCommand, hh]
  · have h1 : (stopCommand alive hiddenExists file).1 = none := by
      cases file <;> rfl
    rw [h1]; rfl
  · have h1 : (stopCommand alive hiddenExists file).1 = none := by
      cases file <;> rfl
    rw [h1]; rfl

/-- Witness for C6 at concrete inputs: record `pid 42, port 3300`, daemon
alive, hidden session present. -/
theorem C6_stop_idempotent_status_not_running_witness :
    (stopCommand (fun _ => true) true (some ⟨42, 3300⟩)).1 = none ∧
    StopAction.sigterm 42 ∈
      (stopCommand (fun _ => true) true (some ⟨42, 3300⟩)).2 ∧
    StopAction.killHiddenSession ∈
      (stopCommand (fun _ => true) true (some ⟨42, 3300⟩)).2 := by
  have h := C6_stop_idempotent_status_not_running (fun _ => true) (fun _ => true)
    true true (some ⟨42, 3300⟩)
  exact ⟨h.1, h.2.1 ⟨42, 3300⟩ rfl rfl (by decide), h.2.2.1 ⟨42, 3300⟩ rfl rfl⟩

/-! ## Periodic session-list refresh (`src/unnamed/part_004`, `src/public/app.js`)

`startSessionRefresh` (part_004 lines 134-146) runs every 5 seconds:

    const sessions = listSessions();
    const msg = proto.sessionsList(sessions);
    for (const client of this.clients) {
      if (client.ws.readyState === client.ws.OPEN) {
        client.ws.send(msg);
      }
    }

There is no comparison with the previous push: the composed list is sent
to every open connection on every tick.  The browser client
(`app.js` `handleSessions`, lines 310-333) is the one that skips its DOM
rebuild when the comma-joined name list equals the one it last handled.
-/

/-- One entry of the session list as composed by `listSessions`. -/
structure SessionInfo where
  name : String
  isClaude : Bool
deriving DecidableEq

/-- The `sessions` wire message (`proto.sessionsList`). -/
structure SessionsMsg where
  sessions : List SessionInfo
deriving DecidableEq

/-- One timer tick of `startSessionRefresh`: for each connected client
(its `ws.readyState === OPEN` flag), the composed message is sent iff the
socket is open — with no comparison against any previous push. -/
def refreshTick (sessions : List SessionInfo) (clientsOpen : List Bool) :
    List (Option SessionsMsg) :=
  clientsOpen.map fun isOpen => if isOpen then some ⟨sessions⟩ else none

/-- A run of the refresh interval: one tick per session-list snapshot. -/
def refreshRun (ticks : List (List SessionInfo)) (clientsOpen : List Bool) :
    List (List (Option SessionsMsg)) :=
  ticks.map fun l => refreshTick l clientsOpen

/-- The messages the `i`-th client actually receives over a run, in order. -/
def messagesToClient (i : Nat) (runOut : List (List (Option SessionsMsg))) :
    List SessionsMsg :=
  runOut.filterMap fun tick => (tick[i]?).join

/-- `app.js` `handleSessions` client state: the comma-joined name list of
the last handled push and the names in the session picker. -/
structure UiState where
  lastSessionList : String
  pickerNames : List String
deriving DecidableEq

/-- The comma-joined name list `sessions.map(name).join(',')`
(app.js line 312). -/
def composeNames (sessions : List SessionInfo) : String :=
  String.intercalate "," (sessions.map fun s => s.name)

/-- `app.js` `handleSessions` (lines 310-333): skip the DOM rebuild when
the composed name list equals the last handled one, otherwise record it
and rebuild the picker. -/
def handleSessionsUi (msg : SessionsMsg) (st : UiState) : UiState :=
  if composeNames msg.sessions = st.lastSessionList then st
  else ⟨composeNames msg.sessions, msg.sessions.map fun s => s.name⟩

/-- Claim C9 (amended): the session list is re-pushed to every open
connection on every fixed-interval tick *unconditionally* — the server
performs no change suppression and will send consecutive identical
broadcasts; the suppression of redundant updates happens client-side,
where `handleSessions` leaves its state untouched when the composed name
list equals the last one handled. -/
theorem C9_refresh_push_every_tick (ticks : List (List SessionInfo))
    (clientsOpen : List Bool) (i : Nat) (hi : clientsOpen[i]? = some true) :
    messagesToClient i (refreshRun ticks clientsOpen) =
      ticks.map (fun l => (⟨l⟩ : SessionsMsg)) ∧
    (∀ msg st, composeNames msg.sessions = st.lastSessionList →
      handleSessionsUi msg st = st) := by
  constructor
  · induction ticks with
    | nil => rfl
    | cons l ls ih =>
      have hdeliv : ((refreshTick l clientsOpen)[i]?).join = some ⟨l⟩ := by
        rw [refreshTick, List.getElem?_map, hi]
        rfl
      simp only [refreshRun, List.map_cons, messagesToClient,
        List.filterMap_cons, hdeliv]
      simpa [messagesToClient, refreshRun] using ih
  · intro msg st h
    simp [handleSessionsUi, h]

/-- Witness for C9 at a concrete input: one open client, two ticks with
the same single session, a UI state that already saw that list. -/
theorem C9_refresh_push_every_tick_witness :
    messagesToClient 0
        (refreshRun [[⟨"claude-1", true⟩], [⟨"claude-1", true⟩]] [true]) =
      [⟨[⟨"claude-1", true⟩]⟩, ⟨[⟨"claude-1", true⟩]⟩] ∧
    handleSessionsUi ⟨[⟨"claude-1", true⟩]⟩ ⟨"claude-1", ["claude-1"]⟩ =
      ⟨"claude-1", ["claude-1"]⟩ := by
  have h := C9_refresh_push_every_tick
    [[⟨"claude-1", true⟩], [⟨"claude-1", true⟩]] [true] 0 rfl
  exact ⟨h.1, h.2 ⟨[⟨"claude-1", true⟩]⟩ ⟨"claude-1", ["claude-1"]⟩ (by rfl)⟩

/-- Counterexample to claim C9 as stated: with one open client and two
consecutive ticks whose composed name lists are identical, the server
still sends the second broadcast — two identical messages arrive, where
the claim requires that nothing be sent on the second tick. -/
theorem C9_no_server_suppression_counterexample :
    messagesToClient 0
        (refreshRun [[⟨"claude-1", true⟩], [⟨"claude-1", true⟩]] [true]) =
      [⟨[⟨"claude-1", true⟩]⟩, ⟨[⟨"claude-1", true⟩]⟩] ∧
    (messagesToClient 0
        (refreshRun [[⟨"claude-1", true⟩], [⟨"claude-1", true⟩]] [true])).length = 2 := by
  exact ⟨rfl, rfl⟩

/-! ## Permission decisions (`src/lib/server.js`)

`_handleDecision` (server.js lines 418-433) broadcasts
`permission_resolved { id, behavior }` to every open WebSocket client and
writes the single keystroke `'y'` (when `behavior === 'allow'`) or `'n'`
(any other behavior) to every terminal session whose PTY is currently
live; `TerminalSession.write` drops the write when no PTY is live.
`_handleHookDecide` (lines 196-213) rejects a body missing `id` or
`behavior` with 400 and otherwise invokes `_handleDecision`; the
WebSocket `decision` message (line 371-374) invokes `_handleDecision`
directly. -/

/-- A terminal session as `_handleDecision` sees it: its name and whether
`session.isAlive` (a live PTY) holds. -/
structure TermAlive where
  name : String
  alive : Bool
deriving DecidableEq

/-- The `permission_resolved` wire message (`proto.permissionResolved`). -/
structure PermResolvedMsg where
  id : String
  behavior : String
deriving DecidableEq

/-- `_handleDecision` (server.js lines 418-433): the broadcasts sent (one
per open client, tagged with the client id) and the keystrokes written
(one per session with a live PTY). -/
def handleDecision (id behavior : String) (clients : List (Nat × Bool))
    (sessions : List TermAlive) :
    List (Nat × PermResolvedMsg) × List (String × String) :=
  (clients.filterMap fun c =>
      if c.2 then some (c.1, (⟨id, behavior⟩ : PermResolvedMsg)) else none,
   sessions.filterMap fun s =>
      if s.alive then some (s.name, if behavior = "allow" then "y" else "n")
      else none)

/-- Outcome of a `POST /api/hook/decide`. -/
inductive HookDecideResult where
  /-- 400 `{ error: 'Missing id or behavior' }` -/
  | badRequest
  /-- 200 `{ ok: true }` together with the decision's effects -/
  | ok (broadcasts : List (Nat × PermResolvedMsg))
       (writes : List (String × String))
deriving DecidableEq

/-- `_handleHookDecide` (server.js lines 196-213): a missing or falsy `id`
or `behavior` is a 400; otherwise `_handleDecision` runs. -/
def handleHookDecide (id behavior : Option String)
    (clients : List (Nat × Bool)) (sessions : List TermAlive) :
    HookDecideResult :=
  match id, behavior with
  | some i, some b =>
    if i = "" ∨ b = "" then HookDecideResult.badRequest
    else
      HookDecideResult.ok (handleDecision i b clients sessions).1
        (handleDecision i b clients sessions).2
  | _, _ => HookDecideResult.badRequest

/-- Claim C10: handling an `allow`/`deny` decision (WebSocket `decision`
message and `POST /api/hook/decide` both route to `_handleDecision`)
broadcasts `permission_resolved { id, behavior }` to exactly the open
clients, and writes the single keystroke `'y'` (allow) or `'n'` (deny) to
exactly the sessions with a live PTY — all of them, not only the
originating one, and none without a live PTY. -/
theorem C10_decision_keystrokes (id behavior : String)
    (clients : List (Nat × Bool)) (sessions : List TermAlive)
    (hid : id ≠ "") (hb : behavior = "allow" ∨ behavior = "deny") :
    (∀ c ∈ clients, c.2 = true →
      (c.1, (⟨id, behavior⟩ : PermResolvedMsg)) ∈
        (handleDecision id behavior clients sessions).1) ∧
    (∀ p ∈ (handleDecision id behavior clients sessions).1,
      p.2 = (⟨id, behavior⟩ : PermResolvedMsg) ∧ (p.1, true) ∈ clients) ∧
    (∀ s ∈ sessions, s.alive = true →
      (s.name, if behavior = "allow" then "y" else "n") ∈
        (handleDecision id behavior clients sessions).2) ∧
    (∀ w ∈ (handleDecision id behavior clients sessions).2,
      (w.2 = "y" ↔ behavior = "allow") ∧ (w.2 = "n" ↔ behavior = "deny") ∧
      ∃ s ∈ sessions, s.alive = true ∧ s.name = w.1) ∧
    handleHookDecide (some id) (some behavior) clients sessions =
      HookDecideResult.ok (handleDecision id behavior clients sessions).1
        (handleDecision id behavior clients sessions).2 := by
  have hbne : behavior ≠ "" := by
    rcases hb with h | h <;> subst h <;> decide
  refine ⟨fun c hc hopen => ?_, fun p hp => ?_, fun s hs hal => ?_,
    fun w hw => ?_, ?_⟩
  · simp only [handleDecision]
    exact List.mem_filterMap.mpr ⟨c, hc, by rw [hopen]; rfl⟩
  · simp only [handleDecision] at hp
    rcases List.mem_filterMap.mp hp with ⟨c, hc, hfc⟩
    cases hcop : c.2 with
    | false => rw [hcop] at hfc; simp at hfc
    | true =>
      rw [hcop] at hfc
      simp only [if_pos] at hfc
      have hp1 : p = (c.1, (⟨id, behavior⟩ : PermResolvedMsg)) := by
        simpa using hfc.symm
      subst hp1
      exact ⟨rfl, by rw [← hcop]; exact hc⟩
  · simp only [handleDecision]
    exact List.mem_filterMap.mpr ⟨s, hs, by rw [hal]; rfl⟩
  · simp only [handleDecision] at hw
    rcases List.mem_filterMap.mp hw with ⟨s, hs, hfs⟩
    cases hsal : s.alive with
    | false => rw [hsal] at hfs; simp at hfs
    | true =>
      rw [hsal] at hfs
      simp only [if_pos] at hfs
      have hw1 : w = (s.name, if behavior = "allow" then "y" else "n") := by
        simpa using hfs.symm
      subst hw1
      rcases hb with h | h <;> subst h
      · exact ⟨by simp, by simp, s, hs, hsal, rfl⟩
      · exact ⟨by simp, by simp, s, hs, hsal, rfl⟩
  · simp [handleHookDecide, hid, hbne]

/-- Witness for C10 at concrete inputs: decision id `"req1"`, behavior
`allow`, one open and one closed client, one live and one dead session. -/
theorem C10_decision_keystrokes_witness :
    ((7 : Nat), (⟨"req1", "allow"⟩ : PermResolvedMsg)) ∈
      (handleDecision "req1" "allow" [(7, true), (8, false)]
        [⟨"claude-1", true⟩, ⟨"claude-2", false⟩]).1 ∧
    ("claude-1", "y") ∈
      (handleDecision "req1" "allow" [(7, true), (8, false)]
        [⟨"claude-1", true⟩, ⟨"claude-2", false⟩]).2 ∧
    (handleDecision "req1" "allow" [(7, true), (8, false)]
        [⟨"claude-1", true⟩, ⟨"claude-2", false⟩]).2 = [("claude-1", "y")] := by
  have h := C10_decision_keystrokes "req1" "allow" [(7, true), (8, false)]
    [⟨"claude-1", true⟩, ⟨"claude-2", false⟩] (by decide) (Or.inl rfl)
  refine ⟨h.1 (7, true) (by decide) rfl, ?_, by rfl⟩
  exact h.2.2.1 ⟨"claude-1", true⟩ (by decide) rfl

end AgentDeck
